import Mathlib

/-!
Shallow embedding of the live voice-session logic of the repository
(src/components/VoiceMode.tsx, src/unnamed/part_005, src/unnamed/part_000,
src/services/geminiService.ts) together with proofs about it.

JavaScript strings whose characters matter are modeled as `List Char`;
byte arrays (`Uint8Array`) as `List ℕ` with every element below 256;
audio-clock times and float samples as `ℚ`.
-/

set_option maxRecDepth 4000

/-- Decidable model of the JavaScript whitespace class used by
`String.prototype.trim` (restricted to the ASCII whitespace characters
that can actually occur in the transcription strings). -/
def isJsWS (c : Char) : Bool :=
  (c == ' ') || (c == '\t') || (c == '\n') || (c == '\r') || (c == '\x0b') || (c == '\x0c')

/-- Model of JavaScript `s.trim()`: drop leading and trailing whitespace. -/
def jsTrim (l : List Char) : List Char :=
  ((l.dropWhile isJsWS).reverse.dropWhile isJsWS).reverse

/-- The two transcript roles of `TranscriptionLine` in VoiceMode.tsx:
`'Tu'` (the user) and `'AI'` (the assistant). -/
inductive Role
  | tu
  | ai
deriving DecidableEq, Repr

/-- `TranscriptionLine` from VoiceMode.tsx: a role plus accumulated text. -/
structure TLine where
  role : Role
  text : List Char
deriving DecidableEq, Repr

/-- The `needsSpace` test of `handleTranscription` in VoiceMode.tsx:
`last.text.length > 0 && !last.text.endsWith(' ') && !newText.startsWith(' ')`.
Note that it tests for the space character only, not for general whitespace. -/
def needsSpace (prevText newText : List Char) : Bool :=
  !prevText.isEmpty && !(prevText.getLast? == some ' ') && !(newText.head? == some ' ')

/-- `handleTranscription` from VoiceMode.tsx (lines 197-207): ignore empty or
whitespace-only deltas; append to the most recent line when it has the same
role, inserting a space according to `needsSpace`; otherwise push a new line
holding the trimmed delta. -/
def handleTranscription (role : Role) (newText : List Char) (prev : List TLine) : List TLine :=
  if jsTrim newText = [] then prev
  else
    match prev.getLast? with
    | some last =>
        if last.role = role then
          prev.dropLast ++
            [⟨last.role, last.text ++ (if needsSpace last.text newText then [' '] else []) ++ newText⟩]
        else prev ++ [⟨role, jsTrim newText⟩]
    | none => prev ++ [⟨role, jsTrim newText⟩]

/-- `updateTranscription` from src/unnamed/part_005 (lines 262-275): same
line-selection logic, but the most recent same-role line has its text
REPLACED by the accumulated full text rather than appended to. -/
def updateTranscription (role : Role) (fullText : List Char) (prev : List TLine) : List TLine :=
  if jsTrim fullText = [] then prev
  else
    match prev.getLast? with
    | some last =>
        if last.role = role then prev.dropLast ++ [⟨last.role, fullText⟩]
        else prev ++ [⟨role, fullText⟩]
    | none => prev ++ [⟨role, fullText⟩]

/-- Modelled from the spec, for comparison with `needsSpace`: insert a
space "only when neither the existing text ends, nor the new fragment
begins, with whitespace". -/
def needsSpaceSpec (prevText newText : List Char) : Bool :=
  !(match prevText.getLast? with | some c => isJsWS c | none => false) &&
  !(match newText.head? with | some c => isJsWS c | none => false)

/-- Modelled from the spec: `handleTranscription` with the separator rule
the spec states (whitespace class) in place of the space-character test the
source performs; identical to `handleTranscription` otherwise. -/
def handleTranscriptionSpecWS (role : Role) (newText : List Char) (prev : List TLine) : List TLine :=
  if jsTrim newText = [] then prev
  else
    match prev.getLast? with
    | some last =>
        if last.role = role then
          prev.dropLast ++
            [⟨last.role,
              last.text ++ (if needsSpaceSpec last.text newText then [' '] else []) ++ newText⟩]
        else prev ++ [⟨role, jsTrim newText⟩]
    | none => prev ++ [⟨role, jsTrim newText⟩]

/-- Model of JavaScript `Math.max` on two rationals. -/
def mathMax (a b : ℚ) : ℚ := if a ≤ b then b else a

/-- Playback-scheduler state of VoiceMode.tsx and part_005.
`nextStartTime` is `nextStartTimeRef.current` (the spec calls it
`lastScheduledEnd`); `sources` is the live set `sourcesRef.current`,
holding numeric buffer ids.  `stopped` records every id on which `stop()`
was called and `sched` the (start, duration) pair of every `source.start`
call, in order; both are observation history, written exactly where the
corresponding source-side call happens and never read by the step function. -/
structure SchedState where
  nextStartTime : ℚ
  sources : List ℕ
  stopped : List ℕ
  sched : List (ℚ × ℚ)
  nextId : ℕ
deriving DecidableEq, Repr

/-- Scheduler-relevant inbound events, each carrying the output-clock
reading (`outputCtx.currentTime`) at the moment it is handled. -/
inductive SchedEvent
  | chunk (clockNow duration : ℚ)
  | interrupted (clockNow : ℚ)
  | ended (bufId : ℕ)
deriving DecidableEq, Repr

/-- Initial scheduler state: `nextStartTimeRef` starts at 0, the live set empty. -/
def initSched : SchedState := ⟨0, [], [], [], 0⟩

/-- One `onmessage` scheduler action from VoiceMode.tsx (lines 210-226),
identical in part_005 (lines 313-330).
On audio: `nextStartTime = Math.max(nextStartTime, currentTime)`, start the
source there, advance by the buffer duration, add it to the live set.
On interrupted: stop every live source, clear the set, `nextStartTime = 0`.
On a playback-ended callback: delete that source from the live set. -/
def stepSched (s : SchedState) : SchedEvent → SchedState
  | .chunk clockNow duration =>
      let start := mathMax s.nextStartTime clockNow
      ⟨start + duration, s.sources ++ [s.nextId], s.stopped,
        s.sched ++ [(start, duration)], s.nextId + 1⟩
  | .interrupted _ => ⟨0, [], s.stopped ++ s.sources, s.sched, s.nextId⟩
  | .ended bufId => ⟨s.nextStartTime, s.sources.erase bufId, s.stopped, s.sched, s.nextId⟩

/-- Run the scheduler over a sequence of events. -/
def runSched (s : SchedState) (events : List SchedEvent) : SchedState :=
  List.foldl stepSched s events

/-- Character `n` of the base64 alphabet used by `btoa`
(`A-Z`, `a-z`, `0-9`, `+`, `/`); models the encoding table of the
platform `btoa` consumed by `gemini.encode` in geminiService.ts. -/
def b64char (n : ℕ) : Char :=
  Char.ofNat
    (if n < 26 then 65 + n
     else if n < 52 then 71 + n
     else if n < 62 then n - 4
     else if n = 62 then 43 else 47)

/-- Value of a base64 alphabet character, as used by the platform `atob`
consumed by `gemini.decode`; non-alphabet characters map to 64. -/
def b64val (c : Char) : ℕ :=
  if 65 ≤ c.toNat ∧ c.toNat ≤ 90 then c.toNat - 65
  else if 97 ≤ c.toNat ∧ c.toNat ≤ 122 then c.toNat - 71
  else if 48 ≤ c.toNat ∧ c.toNat ≤ 57 then c.toNat + 4
  else if c = '+' then 62
  else if c = '/' then 63
  else 64

/-- `gemini.encode` from geminiService.ts (lines 260-267): turn the byte
array into a binary string (one character per byte, same code) and apply
`btoa`, i.e. standard base64 with `=` padding.  Bytes are modeled as
naturals below 256. -/
def geminiEncode : List ℕ → List Char
  | [] => []
  | [b0] => [b64char (b0 / 4), b64char (b0 % 4 * 16), '=', '=']
  | [b0, b1] => [b64char (b0 / 4), b64char (b0 % 4 * 16 + b1 / 16), b64char (b1 % 16 * 4), '=']
  | b0 :: b1 :: b2 :: rest =>
      b64char (b0 / 4) :: b64char (b0 % 4 * 16 + b1 / 16) ::
        b64char (b1 % 16 * 4 + b2 / 64) :: b64char (b2 % 64) :: geminiEncode rest

/-- `gemini.decode` from geminiService.ts (lines 269-277): apply `atob` and
read one byte per character of the resulting binary string. -/
def geminiDecode : List Char → List ℕ
  | c0 :: c1 :: c2 :: c3 :: rest =>
      if c2 = '=' then [b64val c0 * 4 + b64val c1 / 16]
      else if c3 = '=' then
        [b64val c0 * 4 + b64val c1 / 16, b64val c1 % 16 * 16 + b64val c2 / 4]
      else
        (b64val c0 * 4 + b64val c1 / 16) :: (b64val c1 % 16 * 16 + b64val c2 / 4) ::
          (b64val c2 % 4 * 64 + b64val c3) :: geminiDecode rest
  | _ => []

/-- Truncation toward zero of a rational, as JavaScript number-to-integer
conversion does before taking a value modulo 2 to the 16. -/
def jsTrunc (q : ℚ) : ℤ := if 0 ≤ q then ⌊q⌋ else ⌈q⌉

/-- The ECMAScript `ToInt16` wrap applied when a number is stored into an
`Int16Array`: reduce modulo 65536 into the signed 16-bit range. -/
def toInt16 (n : ℤ) : ℤ :=
  if 32768 ≤ n % 65536 then n % 65536 - 65536 else n % 65536

/-- What `int16[i] = data[i] * 32768` in `createPcmBlob` (VoiceMode.tsx
lines 117-122) stores for one float sample: scale, truncate, wrap.
There is NO clamping in this code path. -/
def vmSample (x : ℚ) : ℤ := toInt16 (jsTrunc (x * 32768))

/-- The sample conversion of `scriptProcessor.onaudioprocess` in
src/unnamed/part_005 (lines 244-251): scale by 32768, clamp the float to
`[-32768, 32767]`, then store into the `Int16Array`. -/
def p5Sample (x : ℚ) : ℤ :=
  if (32767 : ℚ) < x * 32768 then 32767
  else if x * 32768 < -32768 then -32768
  else toInt16 (jsTrunc (x * 32768))

/-- Modelled from the spec: the converter the spec describes, "scaling by
32768 and clamping to [-32768, 32767]". -/
def clampedPcm (x : ℚ) : ℤ := min 32767 (max (-32768) (jsTrunc (x * 32768)))

/-- The bytes of an `Int16Array` viewed through `new Uint8Array(int16.buffer)`:
two little-endian bytes per sample. -/
def int16LEBytes (l : List ℤ) : List ℕ :=
  (l.map fun z => [((z % 65536).toNat) % 256, ((z % 65536).toNat) / 256]).flatten

/-- The `{data, mimeType}` object produced by `createPcmBlob` and consumed
by `sendRealtimeInput`. -/
structure OutboundPacket where
  data : List Char
  mimeType : String
deriving DecidableEq, Repr

/-- `createPcmBlob` from VoiceMode.tsx (lines 117-122): convert every float
sample with the (unclamped) `Int16Array` store, reinterpret the buffer as
bytes and base64-encode them. -/
def createPcmBlob (data : List ℚ) : OutboundPacket :=
  ⟨geminiEncode (int16LEBytes (data.map vmSample)), "audio/pcm;rate=16000"⟩

/-- One `scriptProcessor.onaudioprocess` callback from VoiceMode.tsx
(lines 188-192), acting on the list of packets handed to
`sendRealtimeInput` so far.  The input pairs the value of
`isMutedRef.current` at callback time with the captured frame; when the
flag is set the handler returns before building or sending anything. -/
def audioprocessStep (sent : List OutboundPacket) (frame : Bool × List ℚ) : List OutboundPacket :=
  if frame.1 then sent else sent ++ [createPcmBlob frame.2]

/-- All packets that reach `sendRealtimeInput` over a capture run. -/
def runCapture (frames : List (Bool × List ℚ)) : List OutboundPacket :=
  List.foldl audioprocessStep [] frames

/-- One `LiveServerMessage` as far as VoiceMode.tsx reads it, together with
the output-clock reading (`outputCtx.currentTime`) while it is handled.
`turnComplete` is part of the protocol (and is read by part_005) but no
branch of the VoiceMode.tsx `onmessage` handler consults it. -/
structure VMMessage where
  clockNow : ℚ
  inputTranscription : Option (List Char)
  outputTranscription : Option (List Char)
  audioDuration : Option ℚ
  interrupted : Bool
  turnComplete : Bool
deriving DecidableEq, Repr

/-- The state touched by the VoiceMode.tsx `onmessage` handler. -/
structure VMState where
  transcriptions : List TLine
  sched : SchedState
deriving DecidableEq, Repr

/-- The `onmessage` callback of VoiceMode.tsx (lines 196-227), in source
order: input transcription, output transcription, audio scheduling,
interruption.  Nothing reads `msg.serverContent?.turnComplete`. -/
def onMessage (st : VMState) (m : VMMessage) : VMState :=
  let st1 := match m.inputTranscription with
    | some t => ⟨handleTranscription .tu t st.transcriptions, st.sched⟩
    | none => st
  let st2 := match m.outputTranscription with
    | some t => ⟨handleTranscription .ai t st1.transcriptions, st1.sched⟩
    | none => st1
  let st3 := match m.audioDuration with
    | some d => ⟨st2.transcriptions, stepSched st2.sched (.chunk m.clockNow d)⟩
    | none => st2
  if m.interrupted then ⟨st3.transcriptions, stepSched st3.sched (.interrupted m.clockNow)⟩
  else st3

/-- Run the VoiceMode.tsx message handler over a message sequence. -/
def runMessages (st : VMState) (ms : List VMMessage) : VMState :=
  List.foldl onMessage st ms

/-- Initial VoiceMode session state: no transcript lines, fresh scheduler. -/
def initVM : VMState := ⟨[], initSched⟩

/-- The state touched by the part_005 `onmessage` handler:
transcript lines, the two accumulator refs `currentInputRef` and
`currentOutputRef`, and the same scheduler. -/
structure P5State where
  transcriptions : List TLine
  currentIn : List Char
  currentOut : List Char
  sched : SchedState
deriving DecidableEq, Repr

/-- The `onmessage` callback of src/unnamed/part_005 (lines 259-330), in
source order: accumulate the input delta and update the `Tu` line with the
full accumulated text, likewise for `AI`, then on `turnComplete` reset both
accumulators (the asynchronous translation attach only adds a translation
to an existing line and is elided), then schedule audio, then handle
interruption. -/
def p5OnMessage (st : P5State) (m : VMMessage) : P5State :=
  let st1 := match m.inputTranscription with
    | some t =>
        ⟨updateTranscription .tu (st.currentIn ++ t) st.transcriptions,
          st.currentIn ++ t, st.currentOut, st.sched⟩
    | none => st
  let st2 := match m.outputTranscription with
    | some t =>
        ⟨updateTranscription .ai (st1.currentOut ++ t) st1.transcriptions,
          st1.currentIn, st1.currentOut ++ t, st1.sched⟩
    | none => st1
  let st3 := if m.turnComplete then ⟨st2.transcriptions, [], [], st2.sched⟩ else st2
  let st4 := match m.audioDuration with
    | some d => ⟨st3.transcriptions, st3.currentIn, st3.currentOut,
        stepSched st3.sched (.chunk m.clockNow d)⟩
    | none => st3
  if m.interrupted then
    ⟨st4.transcriptions, st4.currentIn, st4.currentOut, stepSched st4.sched (.interrupted m.clockNow)⟩
  else st4

/-- Initial part_005 session state: no lines, empty accumulators. -/
def initP5 : P5State := ⟨[], [], [], initSched⟩

/-- A message carrying only an output-transcription delta. -/
def msgOut (t : List Char) : VMMessage := ⟨0, none, some t, none, false, false⟩

/-- A message carrying only a turn-complete marker. -/
def msgTurnComplete : VMMessage := ⟨0, none, none, none, false, true⟩

/-- The VoiceMode.tsx component state that drives its connection effect,
plus two observation counters. The effect on lines 156-243 has dependency
list `[currentVoiceKey, profile.mode, profile.accentIntensity]`; whenever
one of those values changes, React runs the cleanup (closing the stream,
script processor, input context and session: one teardown) and then the
effect body (one new capture/transport pair): `teardowns` and `starts`
count those runs.  `profile.voiceId` is not a dependency. -/
structure UIState where
  currentVoiceKey : String
  accentIntensity : ℕ
  learningMode : Bool
  transcriptions : List TLine
  teardowns : ℕ
  starts : ℕ
deriving DecidableEq, Repr

/-- The dependency tuple of the VoiceMode.tsx connection effect. -/
def effectDeps (s : UIState) : String × Bool × ℕ :=
  (s.currentVoiceKey, s.learningMode, s.accentIntensity)

/-- React effect semantics for the VoiceMode.tsx connection effect: after a
render that changed the state from `old` to `upd`, the cleanup and the
effect body run exactly once iff the dependency tuple changed. -/
def applyLifecycle (old upd : UIState) : UIState :=
  if effectDeps upd = effectDeps old then upd
  else ⟨upd.currentVoiceKey, upd.accentIntensity, upd.learningMode,
    upd.transcriptions, upd.teardowns + 1, upd.starts + 1⟩

/-- `selectVoice` from VoiceMode.tsx (lines 245-251): a same-key selection
returns immediately; otherwise set the new key, clear the transcript list
(and update `profile.voiceId`, which is not an effect dependency), after
which the connection effect re-runs. -/
def selectVoice (s : UIState) (key : String) : UIState :=
  if key = s.currentVoiceKey then s
  else applyLifecycle s ⟨key, s.accentIntensity, s.learningMode, [], s.teardowns, s.starts⟩

/-- The accent-intensity slider of VoiceMode.tsx (lines 381-386): its
`onChange` calls `onUpdateProfile` with the new intensity and nothing else;
the transcript list is not touched, and the connection effect re-runs iff
the intensity actually changed. -/
def setAccentIntensity (s : UIState) (a : ℕ) : UIState :=
  applyLifecycle s ⟨s.currentVoiceKey, a, s.learningMode, s.transcriptions, s.teardowns, s.starts⟩

/-- The failure the `try` block of `translateLine` can swallow. -/
structure TranslationError where
  detail : String

/-- JavaScript `s.trim()` on a whole string. -/
def jsTrimStr (s : String) : String := String.mk (jsTrim s.toList)

/-- `translateLine` from src/unnamed/part_000 (lines 108-116): inside a
`try`, return `response.text?.trim() || ""`; any thrown error is caught
and the empty string returned. -/
def translateLine (response : Except TranslationError (Option String)) : String :=
  match response with
  | .error _ => ""
  | .ok t =>
      match t with
      | none => ""
      | some s => if jsTrimStr s = "" then "" else jsTrimStr s

lemma b64val_b64char {n : ℕ} (h : n < 64) : b64val (b64char n) = n := by
  have key : ∀ m : Fin 64, b64val (b64char m.val) = m.val := by decide
  exact key ⟨n, h⟩

lemma b64char_ne_pad {n : ℕ} (h : n < 64) : b64char n ≠ '=' := by
  have key : ∀ m : Fin 64, b64char m.val ≠ '=' := by decide
  exact key ⟨n, h⟩

lemma geminiDecode_geminiEncode :
    ∀ l : List ℕ, (∀ b ∈ l, b < 256) → geminiDecode (geminiEncode l) = l
  | [], _ => rfl
  | [b0], h => by
      have hb0 : b0 < 256 := h b0 (by simp)
      rw [show geminiEncode [b0]
            = [b64char (b0 / 4), b64char (b0 % 4 * 16), '=', '='] from rfl]
      rw [show ∀ x0 x1, geminiDecode [x0, x1, '=', '=']
            = [b64val x0 * 4 + b64val x1 / 16] from fun _ _ => rfl]
      rw [b64val_b64char (by omega), b64val_b64char (by omega)]
      have : b0 / 4 * 4 + b0 % 4 * 16 / 16 = b0 := by omega
      rw [this]
  | [b0, b1], h => by
      have hb0 : b0 < 256 := h b0 (by simp)
      have hb1 : b1 < 256 := h b1 (by simp)
      rw [show geminiEncode [b0, b1]
            = [b64char (b0 / 4), b64char (b0 % 4 * 16 + b1 / 16), b64char (b1 % 16 * 4), '=']
          from rfl]
      rw [show ∀ x0 x1 x2, geminiDecode [x0, x1, x2, '=']
            = if x2 = '=' then [b64val x0 * 4 + b64val x1 / 16]
              else [b64val x0 * 4 + b64val x1 / 16, b64val x1 % 16 * 16 + b64val x2 / 4]
          from fun _ _ _ => rfl]
      rw [if_neg (b64char_ne_pad (by omega))]
      rw [b64val_b64char (by omega), b64val_b64char (by omega), b64val_b64char (by omega)]
      have e0 : b0 / 4 * 4 + (b0 % 4 * 16 + b1 / 16) / 16 = b0 := by omega
      have e1 : (b0 % 4 * 16 + b1 / 16) % 16 * 16 + b1 % 16 * 4 / 4 = b1 := by omega
      rw [e0, e1]
  | b0 :: b1 :: b2 :: rest, h => by
      have hb0 : b0 < 256 := h b0 (by simp)
      have hb1 : b1 < 256 := h b1 (by simp)
      have hb2 : b2 < 256 := h b2 (by simp)
      have ih := geminiDecode_geminiEncode rest (fun b hb => h b (by simp [hb]))
      rw [show geminiEncode (b0 :: b1 :: b2 :: rest)
            = b64char (b0 / 4) :: b64char (b0 % 4 * 16 + b1 / 16) ::
                b64char (b1 % 16 * 4 + b2 / 64) :: b64char (b2 % 64) ::
                  geminiEncode rest from rfl]
      rw [show ∀ x0 x1 x2 x3 r, geminiDecode (x0 :: x1 :: x2 :: x3 :: r)
            = if x2 = '=' then [b64val x0 * 4 + b64val x1 / 16]
              else if x3 = '=' then
                [b64val x0 * 4 + b64val x1 / 16, b64val x1 % 16 * 16 + b64val x2 / 4]
              else (b64val x0 * 4 + b64val x1 / 16) :: (b64val x1 % 16 * 16 + b64val x2 / 4) ::
                (b64val x2 % 4 * 64 + b64val x3) :: geminiDecode r
          from fun _ _ _ _ _ => rfl]
      rw [if_neg (b64char_ne_pad (by omega)), if_neg (b64char_ne_pad (by omega))]
      rw [b64val_b64char (by omega), b64val_b64char (by omega),
        b64val_b64char (by omega), b64val_b64char (by omega)]
      rw [ih]
      have e0 : b0 / 4 * 4 + (b0 % 4 * 16 + b1 / 16) / 16 = b0 := by omega
      have e1 : (b0 % 4 * 16 + b1 / 16) % 16 * 16 + (b1 % 16 * 4 + b2 / 64) / 4 = b1 := by omega
      have e2 : (b1 % 16 * 4 + b2 / 64) % 4 * 64 + b2 % 64 = b2 := by omega
      rw [e0, e1, e2]

example : vmSample 1 = -32768 := by norm_num [vmSample, jsTrunc, toInt16]
example : p5Sample 1 = 32767 := by norm_num [p5Sample]
example : clampedPcm 1 = 32767 := by norm_num [clampedPcm, jsTrunc]

lemma mem_dropWhile_of_not {p : Char → Bool} {l : List Char} {c : Char}
    (hc : c ∈ l) (hp : p c = false) : c ∈ l.dropWhile p := by
  rcases List.mem_append.mp ((List.takeWhile_append_dropWhile p l) ▸ hc) with h | h
  · exact absurd (List.mem_takeWhile_imp h) (by simp [hp])
  · exact h

lemma mem_jsTrim_of_not_ws {l : List Char} {c : Char}
    (hc : c ∈ l) (hp : isJsWS c = false) : c ∈ jsTrim l := by
  unfold jsTrim
  exact List.mem_reverse.mpr
    (mem_dropWhile_of_not (List.mem_reverse.mpr (mem_dropWhile_of_not hc hp)) hp)

lemma jsTrim_ne_nil_iff {l : List Char} :
    jsTrim l ≠ [] ↔ ∃ c ∈ l, isJsWS c = false := by
  constructor
  · intro h
    by_contra hall
    push_neg at hall
    apply h
    have : l.dropWhile isJsWS = [] :=
      List.dropWhile_eq_nil_iff.mpr fun x hx => by
        have := hall x hx
        simp only [Bool.not_eq_false] at this
        simpa using this
    simp [jsTrim, this]
  · rintro ⟨c, hc, hp⟩
    intro h
    exact absurd (h ▸ mem_jsTrim_of_not_ws hc hp) (List.not_mem_nil c)

lemma jsTrim_append_ne_nil {s t : List Char} (h : jsTrim s ≠ []) :
    jsTrim (s ++ t) ≠ [] := by
  rcases jsTrim_ne_nil_iff.mp h with ⟨c, hc, hp⟩
  exact jsTrim_ne_nil_iff.mpr ⟨c, List.mem_append_left t hc, hp⟩

lemma jsTrim_jsTrim_ne_nil {l : List Char} (h : jsTrim l ≠ []) :
    jsTrim (jsTrim l) ≠ [] := by
  rcases jsTrim_ne_nil_iff.mp h with ⟨c, hc, hp⟩
  exact jsTrim_ne_nil_iff.mpr ⟨c, mem_jsTrim_of_not_ws hc hp, hp⟩

lemma mathMax_eq_max (a b : ℚ) : mathMax a b = max a b := by
  rw [mathMax, max_def]

lemma le_mathMax_left (a b : ℚ) : a ≤ mathMax a b := by
  unfold mathMax; split
  · assumption
  · exact le_refl a

lemma runSched_chunks_inv (events : List (ℚ × ℚ)) :
    ∀ s : SchedState, (∀ p ∈ events, 0 ≤ p.2) →
      (∀ p ∈ s.sched, p.1 + p.2 ≤ s.nextStartTime) →
      s.sched.Pairwise (fun a b => a.1 + a.2 ≤ b.1) →
      (∀ p ∈ s.sched, 0 ≤ p.2) →
      (∀ p ∈ (runSched s (events.map fun e => SchedEvent.chunk e.1 e.2)).sched,
          p.1 + p.2 ≤ (runSched s (events.map fun e => SchedEvent.chunk e.1 e.2)).nextStartTime)
        ∧ (runSched s (events.map fun e => SchedEvent.chunk e.1 e.2)).sched.Pairwise
            (fun a b => a.1 + a.2 ≤ b.1)
        ∧ (∀ p ∈ (runSched s (events.map fun e => SchedEvent.chunk e.1 e.2)).sched, 0 ≤ p.2) := by
  induction events with
  | nil => intro s _ h1 h2 h3; exact ⟨h1, h2, h3⟩
  | cons e rest ih =>
    intro s hd h1 h2 h3
    have hd0 : 0 ≤ e.2 := hd e (by simp)
    have hrest : ∀ p ∈ rest, 0 ≤ p.2 := fun p hp => hd p (by simp [hp])
    have hstep : runSched s ((e :: rest).map fun e => SchedEvent.chunk e.1 e.2)
        = runSched (stepSched s (.chunk e.1 e.2)) (rest.map fun e => SchedEvent.chunk e.1 e.2) := by
      simp [runSched]
    rw [hstep]
    have hmono : s.nextStartTime ≤ mathMax s.nextStartTime e.1 := le_mathMax_left _ _
    refine ih (stepSched s (.chunk e.1 e.2)) hrest ?_ ?_ ?_
    · intro p hp
      simp only [stepSched, List.mem_append, List.mem_singleton] at hp ⊢
      rcases hp with hp | hp
      · have := h1 p hp
        have : p.1 + p.2 ≤ mathMax s.nextStartTime e.1 := le_trans this hmono
        linarith
      · subst hp; simp
    · simp only [stepSched]
      rw [List.pairwise_append]
      refine ⟨h2, List.pairwise_singleton _ _, ?_⟩
      intro a ha b hb
      simp only [List.mem_singleton] at hb
      subst hb
      exact le_trans (h1 a ha) hmono
    · intro p hp
      simp only [stepSched, List.mem_append, List.mem_singleton] at hp
      rcases hp with hp | hp
      · exact h3 p hp
      · subst hp; exact hd0

lemma handleTranscription_preserves {r : Role} {d : List Char} {st : List TLine}
    (h : ∀ t ∈ st, jsTrim t.text ≠ []) :
    ∀ t ∈ handleTranscription r d st, jsTrim t.text ≠ [] := by
  intro t ht
  unfold handleTranscription at ht
  by_cases hd : jsTrim d = []
  · rw [if_pos hd] at ht; exact h t ht
  · rw [if_neg hd] at ht
    rcases hl : st.getLast? with _ | last
    · rw [hl] at ht
      rcases List.mem_append.mp ht with hm | hm
      · exact h t hm
      · simp only [List.mem_singleton] at hm
        subst hm
        exact jsTrim_jsTrim_ne_nil hd
    · rw [hl] at ht
      simp only [] at ht
      by_cases hr : last.role = r
      · rw [if_pos hr] at ht
        rcases List.mem_append.mp ht with hm | hm
        · exact h t (List.mem_of_mem_dropLast hm)
        · simp only [List.mem_singleton] at hm
          subst hm
          exact jsTrim_append_ne_nil (jsTrim_append_ne_nil (h last (List.mem_of_mem_getLast? hl)))
      · rw [if_neg hr] at ht
        rcases List.mem_append.mp ht with hm | hm
        · exact h t hm
        · simp only [List.mem_singleton] at hm
          subst hm
          exact jsTrim_jsTrim_ne_nil hd

lemma foldl_handleTranscription_preserves (events : List (Role × List Char)) :
    ∀ st : List TLine, (∀ t ∈ st, jsTrim t.text ≠ []) →
      ∀ t ∈ List.foldl (fun st e => handleTranscription e.1 e.2 st) st events,
        jsTrim t.text ≠ [] := by
  induction events with
  | nil => intro st h; exact h
  | cons e rest ih =>
    intro st h
    exact ih (handleTranscription e.1 e.2 st) (handleTranscription_preserves h)

example : handleTranscription .ai " come".toList [⟨.ai, "Ciao".toList⟩]
    = [⟨.ai, "Ciao come".toList⟩] := by decide

example :
    List.foldl (fun st d => handleTranscription .ai d st) []
      ["Ciao".toList, " come".toList, " va?".toList]
    = [⟨.ai, "Ciao come va?".toList⟩] := by decide

example : handleTranscription .ai "  ".toList [] = [] := by decide

/-- C9: for every byte array (naturals below 256), decoding the base64
string produced by `gemini.encode` returns the original byte array:
`gemini.decode(gemini.encode(bytes)) = bytes`. -/
theorem gemini_encode_decode_roundtrip (bytes : List ℕ) (h : ∀ b ∈ bytes, b < 256) :
    geminiDecode (geminiEncode bytes) = bytes :=
  geminiDecode_geminiEncode bytes h

/-- C9 witness: the round trip evaluated on a concrete five-byte array. -/
theorem gemini_encode_decode_roundtrip_witness :
    (∀ b ∈ [0, 255, 16, 7, 200], b < 256) ∧
      geminiDecode (geminiEncode [0, 255, 16, 7, 200]) = [0, 255, 16, 7, 200] :=
  ⟨by decide, gemini_encode_decode_roundtrip [0, 255, 16, 7, 200] (by decide)⟩

/-- C1: every audio chunk is scheduled at `start = max(outputClockNow,
lastScheduledEnd)` and `lastScheduledEnd` (the source's `nextStartTime`)
advances by the buffer duration, so over any interruption-free sequence of
chunks with non-negative durations the scheduled starts are non-decreasing
and no two scheduled buffers overlap (each start is at or after the end of
every earlier buffer). -/
theorem scheduler_gapfree_nonoverlap :
    (∀ (s : SchedState) (c d : ℚ),
        (stepSched s (.chunk c d)).sched = s.sched ++ [(max c s.nextStartTime, d)] ∧
        (stepSched s (.chunk c d)).nextStartTime = max c s.nextStartTime + d) ∧
    (∀ events : List (ℚ × ℚ), (∀ p ∈ events, 0 ≤ p.2) →
        (runSched initSched (events.map fun e => SchedEvent.chunk e.1 e.2)).sched.Pairwise
            (fun a b => a.1 + a.2 ≤ b.1) ∧
        (runSched initSched (events.map fun e => SchedEvent.chunk e.1 e.2)).sched.Pairwise
            (fun a b => a.1 ≤ b.1)) := by
  constructor
  · intro s c d
    have hmax : mathMax s.nextStartTime c = max c s.nextStartTime := by
      rw [mathMax_eq_max, max_comm]
    constructor
    · simp [stepSched, hmax]
    · simp [stepSched, hmax]
  · intro events hd
    have hinv := runSched_chunks_inv events initSched hd
      (by intro p hp; simp [initSched] at hp) (by simp [initSched]) (by simp [initSched])
    refine ⟨hinv.2.1, ?_⟩
    refine List.Pairwise.imp_of_mem ?_ hinv.2.1
    intro a b ha _ hab
    have h0 : 0 ≤ a.2 := hinv.2.2 a ha
    linarith

/-- C1 witness: three 1-second chunks arriving with the output clock at 0
schedule at starts 0, 1, 2 and satisfy the non-overlap property. -/
theorem scheduler_gapfree_nonoverlap_witness :
    (runSched initSched
        [SchedEvent.chunk 0 1, SchedEvent.chunk 0 1, SchedEvent.chunk 0 1]).sched
        = [(0, 1), (1, 1), (2, 1)] ∧
    (runSched initSched
        [SchedEvent.chunk 0 1, SchedEvent.chunk 0 1, SchedEvent.chunk 0 1]).sched.Pairwise
        (fun a b => a.1 + a.2 ≤ b.1) := by
  constructor
  · norm_num [runSched, stepSched, initSched, mathMax]
  · have h := (scheduler_gapfree_nonoverlap.2 [(0, 1), (0, 1), (0, 1)] (by norm_num)).1
    simpa using h

/-- C2 counterexample: an `Interrupted` handled while the output clock
reads 5 sets `nextStartTime` (the spec's `lastScheduledEnd`) to 0, not to
the current output-clock time 5. -/
theorem interrupted_reset_counterexample :
    (stepSched ⟨7, [0, 1], [], [(0, 3), (3, 4)], 2⟩ (.interrupted 5)).sources = [] ∧
    (stepSched ⟨7, [0, 1], [], [(0, 3), (3, 4)], 2⟩ (.interrupted 5)).nextStartTime = 0 ∧
    (stepSched ⟨7, [0, 1], [], [(0, 3), (3, 4)], 2⟩ (.interrupted 5)).nextStartTime ≠ 5 := by
  refine ⟨rfl, rfl, ?_⟩
  norm_num [stepSched]

/-- C2 amended: on `Interrupted` every live source is stopped and the live
set emptied immediately, and `nextStartTime` is reset to 0 (not to the
output-clock time); since the output clock is non-negative, the next chunk
is nevertheless scheduled exactly at the then-current clock reading, with
no artificial delay. -/
theorem interrupted_flush_behavior :
    (∀ (s : SchedState) (c : ℚ),
        (stepSched s (.interrupted c)).sources = [] ∧
        (stepSched s (.interrupted c)).stopped = s.stopped ++ s.sources ∧
        (stepSched s (.interrupted c)).nextStartTime = 0) ∧
    (∀ (s : SchedState) (c c' d : ℚ), 0 ≤ c' →
        (stepSched (stepSched s (.interrupted c)) (.chunk c' d)).sched
          = s.sched ++ [(c', d)]) := by
  constructor
  · intro s c; exact ⟨rfl, rfl, rfl⟩
  · intro s c c' d h
    simp [stepSched, mathMax, h]

/-- C2 witness: after an interrupt at clock 5, a chunk arriving at clock 2
with duration 1 is scheduled to start exactly at 2. -/
theorem interrupted_flush_behavior_witness :
    (stepSched (stepSched ⟨7, [0, 1], [], [], 2⟩ (.interrupted 5)) (.chunk 2 1)).sched
      = [(2, 1)] := by
  have h := interrupted_flush_behavior.2 ⟨7, [0, 1], [], [], 2⟩ 5 2 1 (by norm_num)
  simpa using h

/-- C3 counterexample: for the message sequence delta(AI,"Ciao"),
turnComplete, delta(AI,"Bene"), the post-turn-complete assistant delta does
NOT open a brand-new line: VoiceMode.tsx merges it into the finalized line
("Ciao Bene") and part_005 overwrites the finalized line with it ("Bene");
neither yields the two lines the claim requires. -/
theorem turn_boundary_counterexample :
    (runMessages initVM [msgOut "Ciao".toList, msgTurnComplete, msgOut "Bene".toList]).transcriptions
        = [⟨.ai, "Ciao Bene".toList⟩] ∧
    (runMessages initVM [msgOut "Ciao".toList, msgTurnComplete, msgOut "Bene".toList]).transcriptions
        ≠ [⟨.ai, "Ciao".toList⟩, ⟨.ai, "Bene".toList⟩] ∧
    (List.foldl p5OnMessage initP5
        [msgOut "Ciao".toList, msgTurnComplete, msgOut "Bene".toList]).transcriptions
        = [⟨.ai, "Bene".toList⟩] ∧
    (List.foldl p5OnMessage initP5
        [msgOut "Ciao".toList, msgTurnComplete, msgOut "Bene".toList]).transcriptions
        ≠ [⟨.ai, "Ciao".toList⟩, ⟨.ai, "Bene".toList⟩] := by decide

/-- C3 amended: VoiceMode.tsx ignores `turnComplete` entirely, so a delta
opens a brand-new line exactly when the transcript is empty or its most
recent line belongs to the other role; when the most recent line has the
same role — in particular right after that role's turn completed — the
delta is merged into it (VoiceMode.tsx appends, adding no line; part_005
replaces the text of that line). -/
theorem turn_boundary_behavior :
    (∀ (st : VMState) (c : ℚ), onMessage st ⟨c, none, none, none, false, true⟩ = st) ∧
    (∀ (r : Role) (d : List Char) (prev : List TLine),
        jsTrim d ≠ [] → prev.getLast? = none →
        handleTranscription r d prev = prev ++ [⟨r, jsTrim d⟩]) ∧
    (∀ (r : Role) (d : List Char) (prev : List TLine) (last : TLine),
        jsTrim d ≠ [] → prev.getLast? = some last → last.role ≠ r →
        handleTranscription r d prev = prev ++ [⟨r, jsTrim d⟩]) ∧
    (∀ (r : Role) (d : List Char) (prev : List TLine) (last : TLine),
        jsTrim d ≠ [] → prev.getLast? = some last → last.role = r →
        (handleTranscription r d prev).length = prev.length) ∧
    (∀ (r : Role) (full : List Char) (prev : List TLine) (last : TLine),
        jsTrim full ≠ [] → prev.getLast? = some last → last.role = r →
        updateTranscription r full prev = prev.dropLast ++ [⟨r, full⟩]) := by
  refine ⟨?_, ?_, ?_, ?_, ?_⟩
  · intro st c; rfl
  · intro r d prev hd hl
    unfold handleTranscription
    rw [if_neg hd, hl]
  · intro r d prev last hd hl hr
    unfold handleTranscription
    rw [if_neg hd, hl]
    simp only []
    rw [if_neg hr]
  · intro r d prev last hd hl hr
    unfold handleTranscription
    rw [if_neg hd, hl]
    simp only []
    rw [if_pos hr]
    have hne : prev ≠ [] := by intro h; subst h; simp at hl
    have hpos := List.length_pos.mpr hne
    simp only [List.length_append, List.length_dropLast, List.length_singleton]
    omega
  · intro r full prev last hf hl hr
    unfold updateTranscription
    rw [if_neg hf, hl]
    simp only []
    rw [if_pos hr, hr]

/-- C3 witness: a delta for a role different from the most recent line's
role opens a new line holding the trimmed delta. -/
theorem turn_boundary_behavior_witness :
    handleTranscription .ai "Bene".toList [⟨.tu, "Ehi".toList⟩]
      = [⟨.tu, "Ehi".toList⟩, ⟨.ai, "Bene".toList⟩] := by
  have h := turn_boundary_behavior.2.2.1 .ai "Bene".toList [⟨.tu, "Ehi".toList⟩]
    ⟨.tu, "Ehi".toList⟩ (by decide) (by decide) (by decide)
  rw [h]
  decide

/-- C4 counterexample: with existing line text "Ciao" and next fragment
starting with a tab (whitespace but not the space character), the source
inserts a space ("Ciao \tcome") whereas the claimed whitespace rule would
not ("Ciao\tcome"). -/
theorem spacing_whitespace_counterexample :
    List.foldl (fun st d => handleTranscription .ai d st) []
        ["Ciao".toList, "\tcome".toList] = [⟨.ai, "Ciao \tcome".toList⟩] ∧
    List.foldl (fun st d => handleTranscriptionSpecWS .ai d st) []
        ["Ciao".toList, "\tcome".toList] = [⟨.ai, "Ciao\tcome".toList⟩] ∧
    ([⟨.ai, "Ciao \tcome".toList⟩] : List TLine) ≠ [⟨.ai, "Ciao\tcome".toList⟩] := by decide

/-- C4 amended: when appending a delta to the open same-role line, a single
space is inserted exactly when the existing text is non-empty, its last
character is not the space character, and the delta does not begin with the
space character (space only: other whitespace does not suppress the
separator); the delta sequence "Ciao", " come", " va?" still collapses to
exactly "Ciao come va?". -/
theorem spacing_space_char_rule :
    (∀ (r : Role) (d : List Char) (prev : List TLine) (last : TLine),
        jsTrim d ≠ [] → prev.getLast? = some last → last.role = r →
        handleTranscription r d prev =
          prev.dropLast ++
            [⟨r, last.text ++
              (if last.text ≠ [] ∧ last.text.getLast? ≠ some ' ' ∧ d.head? ≠ some ' '
               then [' '] else []) ++ d⟩]) ∧
    List.foldl (fun st d => handleTranscription .ai d st) []
        ["Ciao".toList, " come".toList, " va?".toList]
      = [⟨.ai, "Ciao come va?".toList⟩] := by
  constructor
  · intro r d prev last hd hl hr
    unfold handleTranscription
    rw [if_neg hd, hl]
    simp only []
    rw [if_pos hr, hr]
    have hiff : (needsSpace last.text d = true)
        ↔ (last.text ≠ [] ∧ last.text.getLast? ≠ some ' ' ∧ d.head? ≠ some ' ') := by
      simp [needsSpace, List.isEmpty_iff, and_assoc]
    rw [if_congr hiff rfl rfl]
  · decide

/-- C4 witness: appending "come" to an open assistant line "Ciao" inserts
exactly one space. -/
theorem spacing_space_char_rule_witness :
    handleTranscription .ai "come".toList [⟨.ai, "Ciao".toList⟩]
      = [⟨.ai, "Ciao come".toList⟩] := by
  have h := spacing_space_char_rule.1 .ai "come".toList [⟨.ai, "Ciao".toList⟩]
    ⟨.ai, "Ciao".toList⟩ (by decide) (by decide) (by decide)
  rw [h]
  decide

/-- C5: at the failing full-scale input 1.0, the VoiceMode.tsx encoder
(`createPcmBlob`, no clamp) wraps 32768 around to -32768 — a negative
output for a positive over-range sample — while both the clamping
conversion the claim describes and the part_005 encoder produce 32767. -/
theorem pcm_wraparound_at_fullscale :
    vmSample 1 = -32768 ∧ vmSample 1 < 0 ∧ p5Sample 1 = 32767 ∧ clampedPcm 1 = 32767 := by
  refine ⟨?_, ?_, ?_, ?_⟩
  · norm_num [vmSample, jsTrunc, toInt16]
  · norm_num [vmSample, jsTrunc, toInt16]
  · norm_num [p5Sample]
  · norm_num [clampedPcm, jsTrunc]

lemma foldl_audioprocessStep_length (frames : List (Bool × List ℚ)) :
    ∀ acc : List OutboundPacket,
      (List.foldl audioprocessStep acc frames).length
        = acc.length + (frames.filter fun f => !f.1).length := by
  induction frames with
  | nil => intro acc; simp
  | cons f rest ih =>
    intro acc
    by_cases hf : f.1
    · simp [audioprocessStep, hf, ih]
    · simp only [List.foldl_cons, audioprocessStep, hf, if_neg]
      rw [ih]
      simp [hf]
      omega

/-- C6: while the mute flag read by the capture callback is true, the
callback returns before anything is built or sent, so no outbound packet
ever reaches `sendRealtimeInput`; in general exactly the frames captured
with the flag false produce a packet, in order. -/
theorem mute_gate_blocks_send :
    (∀ frames : List (Bool × List ℚ),
        (∀ f ∈ frames, f.1 = true) → runCapture frames = []) ∧
    (∀ frames : List (Bool × List ℚ),
        (runCapture frames).length = (frames.filter fun f => !f.1).length) := by
  constructor
  · intro frames h
    have hfil : (frames.filter fun f => !f.1) = [] :=
      List.filter_eq_nil_iff.mpr fun f hf => by simp [h f hf]
    have := foldl_audioprocessStep_length frames []
    rw [hfil] at this
    simp only [List.length_nil, Nat.zero_add] at this
    exact List.length_eq_zero.mp (by simpa [runCapture] using this)
  · intro frames
    simpa using foldl_audioprocessStep_length frames []

/-- C6 witness: two frames captured while muted produce zero packets. -/
theorem mute_gate_blocks_send_witness :
    runCapture [(true, [1]), (true, [])] = [] :=
  mute_gate_blocks_send.1 [(true, [1]), (true, [])] (by decide)

/-- C7 counterexample: changing the accent intensity (40 to 70) is a
meaningful config change — it tears down and restarts the connection — but
the transcript list is NOT cleared: it still holds the old line, so its
length is not 0 immediately afterward. -/
theorem accent_change_keeps_transcript_counterexample :
    (setAccentIntensity ⟨"Luca", 40, false, [⟨.ai, "Ciao".toList⟩], 3, 4⟩ 70).teardowns = 4 ∧
    (setAccentIntensity ⟨"Luca", 40, false, [⟨.ai, "Ciao".toList⟩], 3, 4⟩ 70).starts = 5 ∧
    (setAccentIntensity ⟨"Luca", 40, false, [⟨.ai, "Ciao".toList⟩], 3, 4⟩ 70).transcriptions
      ≠ [] := by decide

/-- C7 amended: selecting the active persona again performs no teardown at
all; selecting a different persona tears down exactly one transport/capture
pair, starts exactly one new pair and empties the transcript list; changing
the accent intensity also tears down exactly one pair and starts exactly
one new pair, but leaves the transcript list unchanged. -/
theorem reconfigure_teardown_behavior :
    (∀ s : UIState, selectVoice s s.currentVoiceKey = s) ∧
    (∀ (s : UIState) (k : String), k ≠ s.currentVoiceKey →
        (selectVoice s k).teardowns = s.teardowns + 1 ∧
        (selectVoice s k).starts = s.starts + 1 ∧
        (selectVoice s k).transcriptions = [] ∧
        (selectVoice s k).currentVoiceKey = k) ∧
    (∀ (s : UIState) (a : ℕ), a ≠ s.accentIntensity →
        (setAccentIntensity s a).teardowns = s.teardowns + 1 ∧
        (setAccentIntensity s a).starts = s.starts + 1 ∧
        (setAccentIntensity s a).transcriptions = s.transcriptions) := by
  refine ⟨?_, ?_, ?_⟩
  · intro s
    rw [selectVoice, if_pos rfl]
  · intro s k hk
    rw [selectVoice, if_neg hk]
    rw [applyLifecycle, if_neg (by simp [effectDeps]; intro h; exact absurd h hk)]
    exact ⟨rfl, rfl, rfl, rfl⟩
  · intro s a ha
    rw [setAccentIntensity]
    rw [applyLifecycle, if_neg (by simp [effectDeps]; intro h; exact absurd h ha)]
    exact ⟨rfl, rfl, rfl⟩

/-- C7 witness: switching persona from Luca to Giulia performs one
teardown, one start, and clears the transcript. -/
theorem reconfigure_teardown_behavior_witness :
    (selectVoice ⟨"Luca", 40, false, [⟨.ai, "Ciao".toList⟩], 0, 1⟩ "Giulia").teardowns = 1 ∧
    (selectVoice ⟨"Luca", 40, false, [⟨.ai, "Ciao".toList⟩], 0, 1⟩ "Giulia").transcriptions
      = [] := by
  have h := reconfigure_teardown_behavior.2.1
    ⟨"Luca", 40, false, [⟨.ai, "Ciao".toList⟩], 0, 1⟩ "Giulia" (by decide)
  exact ⟨h.1, h.2.2.1⟩

/-- C8: `translateLine` never propagates a failure: on any thrown error it
returns the empty string, and on success it returns the trimmed response
text (the empty string when the response has no text). -/
theorem translateLine_swallows_errors :
    (∀ e : TranslationError, translateLine (Except.error e) = "") ∧
    (∀ t : Option String, translateLine (Except.ok t) = jsTrimStr (t.getD "")) := by
  constructor
  · intro e; rfl
  · intro t
    cases t with
    | none => rfl
    | some s =>
      show (if jsTrimStr s = "" then "" else jsTrimStr s) = jsTrimStr s
      by_cases h : jsTrimStr s = ""
      · rw [if_pos h, h]
      · rw [if_neg h]

/-- C8 witness: a thrown `TranslationError` yields the empty string. -/
theorem translateLine_swallows_errors_witness :
    translateLine (Except.error ⟨"network failure"⟩) = "" :=
  translateLine_swallows_errors.1 ⟨"network failure"⟩

/-- C10: empty or whitespace-only deltas leave the transcript untouched,
and over every delta sequence every line of the resulting transcript has
text that is neither empty nor whitespace-only. -/
theorem transcript_lines_never_blank :
    (∀ (r : Role) (d : List Char) (st : List TLine),
        jsTrim d = [] → handleTranscription r d st = st) ∧
    (∀ (events : List (Role × List Char)) (t : TLine),
        t ∈ List.foldl (fun st e => handleTranscription e.1 e.2 st) [] events →
        jsTrim t.text ≠ [] ∧ t.text ≠ []) := by
  constructor
  · intro r d st hd
    rw [handleTranscription, if_pos hd]
  · intro events t ht
    have h1 : jsTrim t.text ≠ [] :=
      foldl_handleTranscription_preserves events [] (by intro t ht; simp at ht) t ht
    refine ⟨h1, ?_⟩
    intro h
    apply h1
    rw [h]
    rfl

/-- C10 witness: after the single delta "  Ciao" the only line has
non-blank text. -/
theorem transcript_lines_never_blank_witness :
    jsTrim (TLine.mk Role.ai "Ciao".toList).text ≠ [] ∧
      (TLine.mk Role.ai "Ciao".toList).text ≠ [] :=
  transcript_lines_never_blank.2 [(Role.ai, "  Ciao".toList)]
    ⟨Role.ai, "Ciao".toList⟩ (by decide)
